import Mathlib

/-! ATagger: path classification and instance labels

A shallow embedding of `Unreal/CarlaUE4/Plugins/Carla/Source/Carla/Game/Tagger.h`.

* `GetLabelByPath` splits the path name of an object on `/` and classifies the
  segment at index 4.
* `GetInstanceLabel` gives every first-seen vehicle identifier the next value of
  a 32-bit counter, stores it in an insert-only map, and returns that stored
  index reduced modulo 256, shifted by 23 when the reduced value is below 23.

* `GetTagOfTaggedComponent`, `MatchComponent` and `SetStencilValue` read and
  write the stencil value of a component.

The two static members `instanceCounter` and `instanceActorMap` are threaded
through explicitly as a `TaggerStatics` value.
-/

namespace ATagger

/-! ## Data model -/

/-- Modelled from the spec: `crp::CityObjectLabel` is declared in
`carla/rpc/ObjectLabel.h`, which is not part of this file; the spec describes it
as a closed enumeration represented as a small unsigned integer in 0..255 (the
stencil slot width). A label is modelled by that 8-bit value. -/
abbrev CityObjectLabel := Fin 256

/-- The enumerator `crp::CityObjectLabel::None`, the zero label. -/
def CityObjectLabel.None : CityObjectLabel := 0

/-- The conversion `(crp::CityObjectLabel) n` of a non-negative `int` to the
8-bit label type: the value is reduced modulo 256. -/
def castLabel (n : Nat) : CityObjectLabel := ⟨n % 256, Nat.mod_lt n (by decide)⟩

/-- An engine string (`FString`), as its sequence of characters. -/
abbrev FString := List Char

/-- The objects handed to the template functions: all that is used of an object
is its path name. -/
structure UObject where
  PathName : FString
deriving DecidableEq, Repr

/-- The call `Object->GetPathName()`. -/
def UObject.GetPathName (Object : UObject) : FString := Object.PathName

/-- One pass of the engine routine `FString::ParseIntoArray` over the rest of the
string: `cur` holds, reversed, the characters of the segment in progress. Every
delimiter closes a segment and the end of the string closes the last one; an
empty segment is dropped only when `InCullEmpty` is set. -/
def parseLoop (delim : Char) (InCullEmpty : Bool) : List Char → List Char → List FString
  | [], cur => if InCullEmpty && cur.isEmpty then [] else [cur.reverse]
  | c :: rest, cur =>
    if c = delim then
      (if InCullEmpty && cur.isEmpty then [] else [cur.reverse])
        ++ parseLoop delim InCullEmpty rest []
    else parseLoop delim InCullEmpty rest (c :: cur)

/-- The engine routine `Path.ParseIntoArray(StringArray, delim, InCullEmpty)` for a
one-character delimiter: the empty string yields the empty array, any other
string is cut at every delimiter. -/
def ParseIntoArray (s : FString) (delim : Char) (InCullEmpty : Bool) : List FString :=
  if s = [] then [] else parseLoop delim InCullEmpty s []

/-- `ATagger::GetLabelByPath`. The function `GetLabelByFolderName` is only
declared in the header, so it is taken as a parameter. -/
def GetLabelByPath (GetLabelByFolderName : FString → CityObjectLabel)
    (Object : UObject) : CityObjectLabel :=
  let Path := Object.GetPathName
  let StringArray := ParseIntoArray Path '/' false
  if h : StringArray.length > 4 then
    GetLabelByFolderName (StringArray.get ⟨4, h⟩)
  else CityObjectLabel.None

/-- The pair type `Int_Pair = std::pair<int, uint32>`. -/
abbrev Int_Pair := Int × Nat

/-- The container `std::map<int, uint32>`, as the list of its entries; a key is
looked up at its first entry. -/
abbrev StdMap := List Int_Pair

/-- The lookup `m.find(k)`: `none` stands for `m.end()`. -/
def mapFind : StdMap → Int → Option Nat
  | [], _ => none
  | (k0, v0) :: rest, k => if k0 = k then some v0 else mapFind rest k

/-- The insertion `m.insert(p)`: a key that is already present keeps its entry. -/
def mapInsert (m : StdMap) (p : Int_Pair) : StdMap :=
  match mapFind m p.1 with
  | some _ => m
  | none => p :: m

/-- The checked access `m.at(k)`: `none` stands for the `std::out_of_range`
exception thrown on an absent key. -/
def mapAt (m : StdMap) (k : Int) : Option Nat := mapFind m k

/-- The keys of a map, in entry order. -/
def mapKeys (m : StdMap) : List Int := m.map Prod.fst

/-- The static members of `ATagger` used for instance segmentation. -/
structure TaggerStatics where
  instanceCounter : Nat
  instanceActorMap : StdMap
deriving DecidableEq, Repr

/-- The state before any call: the counter is zero and the map is empty. -/
def TaggerStatics.initial : TaggerStatics := ⟨0, []⟩

/-- `ATagger::GetInstanceLabel`, with the static members passed in and returned.
The result is `none` exactly when `instanceActorMap.at` throws. -/
def GetInstanceLabel (GetLabelByFolderName : FString → CityObjectLabel)
    (Object : UObject) (actorID : Int) (st : TaggerStatics) :
    Option (CityObjectLabel × TaggerStatics) :=
  let label := GetLabelByPath GetLabelByFolderName Object
  if label.val = 10 then
    let st1 : TaggerStatics :=
      if mapFind st.instanceActorMap actorID = none then
        let c := (st.instanceCounter + 1) % 2 ^ 32
        ⟨c, mapInsert st.instanceActorMap (actorID, c)⟩
      else st
    match mapAt st1.instanceActorMap actorID with
    | none => none
    | some v =>
      let tmp := v % 256
      if tmp < 23 then
        some (castLabel (tmp + 23), st1)
      else
        some (castLabel tmp, st1)
  else some (label, st)

/-- A finite sequence of `GetInstanceLabel` calls, each an object and an
identifier, run in order: the labels returned and the final statics. -/
def callSequence (GetLabelByFolderName : FString → CityObjectLabel) :
    List (UObject × Int) → TaggerStatics → Option (List CityObjectLabel × TaggerStatics)
  | [], st => some ([], st)
  | (Object, actorID) :: rest, st =>
    match GetInstanceLabel GetLabelByFolderName Object actorID st with
    | none => none
    | some (l, st1) =>
      match callSequence GetLabelByFolderName rest st1 with
      | none => none
      | some (ls, st2) => some (l :: ls, st2)

/-! ## Concrete inputs used in the closed checks -/

/-- A folder classifier that knows one folder: `Vehicles` is code 10, anything
else is `None`. -/
def vehiclesOnly (String : FString) : CityObjectLabel :=
  if String = ['V', 'e', 'h', 'i', 'c', 'l', 'e', 's'] then 10 else CityObjectLabel.None

/-- An object stored under `/Game/Carla/Static/Vehicles/Car`. -/
def carObject : UObject := ⟨"/Game/Carla/Static/Vehicles/Car".toList⟩

/-- An object stored under `/Game/Carla/Static/Road/Lane`. -/
def roadObject : UObject := ⟨"/Game/Carla/Static/Road/Lane".toList⟩

/-- An object whose path `/Game/Car` has only three segments. -/
def shortObject : UObject := ⟨"/Game/Car".toList⟩

/-- The label that `GetInstanceLabel` computes from a stored index (its last
six lines): the index modulo 256, plus 23 when that is below 23. -/
def labelOfIndex (i : Nat) : CityObjectLabel :=
  let tmp := i % 256
  if tmp < 23 then castLabel (tmp + 23) else castLabel tmp

/-- The calls that query `n` new vehicles: the identifiers 0, 1, ..., n - 1 in
this order, each with the object `carObject`. -/
def firstSeenVehicles (n : Nat) : List (UObject × Int) :=
  (List.range n).map (fun i => (carObject, (i : Int)))

/-! ## Tagged components and folder names -/

/-- Modelled from the spec: the engine type `UPrimitiveComponent` is not declared
in this file. The spec gives a renderable "a settable 8-bit stencil integer and a
boolean render-pass-inclusion flag"; these are the members
`CustomDepthStencilValue` and `bRenderCustomDepth`. -/
structure UPrimitiveComponent where
  CustomDepthStencilValue : Fin 256
  bRenderCustomDepth : Bool
deriving DecidableEq, Repr

/-- `ATagger::GetTagOfTaggedComponent`: the stencil value converted to the label
type. The component is taken by constant reference, so the function returns a
label and nothing else. -/
def GetTagOfTaggedComponent (Component : UPrimitiveComponent) : CityObjectLabel :=
  castLabel Component.CustomDepthStencilValue.val

/-- `ATagger::MatchComponent`. -/
def MatchComponent (Component : UPrimitiveComponent) (Tag : CityObjectLabel) : Bool :=
  decide (Tag = GetTagOfTaggedComponent Component)

/-- Modelled from the spec: `ATagger::SetStencilValue` is only declared in the
header, its body is missing. The spec: "set the renderable's stencil integer to
the numeric label value and, independently, toggle whether the renderable
participates in the custom-depth render pass", the flag being set "exactly to the
requested boolean, independent of prior state". The component after the call is
returned. -/
def SetStencilValue (_Component : UPrimitiveComponent) (Label : CityObjectLabel)
    (bSetRenderCustomDepth : Bool) : UPrimitiveComponent :=
  ⟨⟨Label.val, Label.isLt⟩, bSetRenderCustomDepth⟩

/-- Modelled from the spec: `ATagger::GetLabelByFolderName` is only declared in
the header, its body and its table are missing. The spec: "given a single path
segment (folder name), return the matching label via exact/substring string
matching against a fixed table; unmatched input yields the none label". The
table is a list of patterns with their labels, looked through in order; the test
`isMatch pattern name` (exact or substring) and the table are parameters. -/
def GetLabelByFolderName (isMatch : FString → FString → Bool)
    (table : List (FString × CityObjectLabel)) (String : FString) : CityObjectLabel :=
  match table.find? (fun e => isMatch e.1 String) with
  | some e => e.2
  | none => CityObjectLabel.None

/-- Exact matching of a folder name against a pattern. -/
def exactMatch (pattern String : FString) : Bool := decide (pattern = String)

/-- A small folder table: `Road` is code 7, `Vehicles` is code 10. -/
def sampleTable : List (FString × CityObjectLabel) :=
  [("Road".toList, 7), ("Vehicles".toList, 10)]

/-- An object stored under `/Game/Carla/Static/Props/Bench`. -/
def benchObject : UObject := ⟨"/Game/Carla/Static/Props/Bench".toList⟩

/-! ## First-seen order -/

/-- The vehicle identifiers in the order in which a sequence of calls queries
them for the first time, continuing the list `seen` of those queried before: a
call adds its identifier when its object is a vehicle (label 10) and the
identifier is not in the list yet. -/
def firstSeenFrom (f : FString → CityObjectLabel) : List Int → List (UObject × Int) → List Int
  | seen, [] => seen
  | seen, (Object, actorID) :: rest =>
    if (GetLabelByPath f Object).val = 10 ∧ actorID ∉ seen then
      firstSeenFrom f (seen ++ [actorID]) rest
    else firstSeenFrom f seen rest

/-- The distinct vehicle identifiers of a sequence of calls, in first-seen order. -/
def firstSeen (f : FString → CityObjectLabel) (calls : List (UObject × Int)) : List Int :=
  firstSeenFrom f [] calls

/-- The entries `(id, n), (id2, n + 1), ...` that number a list of identifiers
from `n` on. -/
def numbered : Nat → List Int → StdMap
  | _, [] => []
  | n, actorID :: rest => (actorID, n) :: numbered (n + 1) rest

/-! ## Lemmas on path splitting -/

theorem parseLoop_length (delim : Char) (s : List Char) :
    ∀ cur : List Char, (parseLoop delim false s cur).length = s.count delim + 1 := by
  induction s with
  | nil => intro cur; simp [parseLoop]
  | cons c rest ih =>
    intro cur
    by_cases h : c = delim
    · subst h
      simp [parseLoop, ih, Nat.add_comm]
    · have h2 : ¬ (c == delim) = true := by simpa using h
      simp [parseLoop, h, ih, List.count_cons, h2]

theorem parseLoop_eq_splitOnP_go (delim : Char) (s : List Char) :
    ∀ cur : List Char,
      parseLoop delim false s cur = List.splitOnP.go (fun x => x == delim) s cur := by
  induction s with
  | nil => intro cur; simp [parseLoop, List.splitOnP.go]
  | cons c rest ih =>
    intro cur
    by_cases h : c = delim
    · simp [parseLoop, List.splitOnP.go, h, ih]
    · simp [parseLoop, List.splitOnP.go, h, ih]

/-- With empty segments kept, the array is the library split of a non-empty
string, and is empty for the empty string. -/
theorem ParseIntoArray_eq_splitOn (s : FString) (delim : Char) :
    ParseIntoArray s delim false = if s = [] then [] else s.splitOn delim := by
  by_cases h : s = []
  · simp [ParseIntoArray, h]
  · simp [ParseIntoArray, h, List.splitOn, List.splitOnP, parseLoop_eq_splitOnP_go]

/-- A non-empty string has one segment more than it has delimiters. -/
theorem ParseIntoArray_length (s : FString) (delim : Char) (h : s ≠ []) :
    (ParseIntoArray s delim false).length = s.count delim + 1 := by
  simp [ParseIntoArray, h, parseLoop_length]

/-! ## Lemmas on the map operations -/

theorem mapFind_cons_self (m : StdMap) (k : Int) (v : Nat) :
    mapFind ((k, v) :: m) k = some v := by
  simp [mapFind]

theorem mapFind_cons_of_ne (m : StdMap) (k0 k : Int) (v : Nat) (h : k0 ≠ k) :
    mapFind ((k0, v) :: m) k = mapFind m k := by
  simp [mapFind, h]

theorem mapFind_eq_none_iff (m : StdMap) (k : Int) :
    mapFind m k = none ↔ k ∉ mapKeys m := by
  induction m with
  | nil => simp [mapFind, mapKeys]
  | cons p rest ih =>
    obtain ⟨k0, v0⟩ := p
    by_cases h : k0 = k
    · simp [mapFind, mapKeys, h]
    · have h2 : ¬ k = k0 := fun e => h e.symm
      simp only [mapKeys] at ih
      simp [mapFind, mapKeys, h, h2, ih]

theorem mapFind_mem (m : StdMap) (k : Int) (v : Nat) (h : mapFind m k = some v) :
    (k, v) ∈ m := by
  induction m with
  | nil => simp [mapFind] at h
  | cons p rest ih =>
    obtain ⟨k0, v0⟩ := p
    by_cases hk : k0 = k
    · simp [mapFind, hk] at h
      simp [hk, h]
    · simp [mapFind, hk] at h
      exact List.mem_cons_of_mem _ (ih h)

theorem mapInsert_of_absent (m : StdMap) (p : Int_Pair) (h : mapFind m p.1 = none) :
    mapInsert m p = p :: m := by
  simp [mapInsert, h]

theorem mapInsert_of_present (m : StdMap) (p : Int_Pair) (v : Nat)
    (h : mapFind m p.1 = some v) : mapInsert m p = m := by
  simp [mapInsert, h]

/-! ## What one call of `GetInstanceLabel` does -/

/-- A non-vehicle object: the path label is returned and the statics are kept. -/
theorem GetInstanceLabel_of_not_vehicle (f : FString → CityObjectLabel) (Object : UObject)
    (actorID : Int) (st : TaggerStatics) (h : (GetLabelByPath f Object).val ≠ 10) :
    GetInstanceLabel f Object actorID st = some (GetLabelByPath f Object, st) := by
  simp [GetInstanceLabel, h]

/-- A vehicle whose identifier is already stored with index `i`: the label comes
from `i` and the statics are kept. -/
theorem GetInstanceLabel_of_known (f : FString → CityObjectLabel) (Object : UObject)
    (actorID : Int) (st : TaggerStatics) (i : Nat)
    (h : (GetLabelByPath f Object).val = 10)
    (hi : mapFind st.instanceActorMap actorID = some i) :
    GetInstanceLabel f Object actorID st =
      some (if i % 256 < 23 then castLabel (i % 256 + 23) else castLabel (i % 256), st) := by
  by_cases hlt : i % 256 < 23 <;> simp [GetInstanceLabel, h, hi, mapAt, hlt]

/-- A vehicle whose identifier is not stored yet: the counter is incremented
(modulo 2^32), the identifier is stored with the new counter value, and the label
comes from that value. -/
theorem GetInstanceLabel_of_fresh (f : FString → CityObjectLabel) (Object : UObject)
    (actorID : Int) (st : TaggerStatics)
    (h : (GetLabelByPath f Object).val = 10)
    (hi : mapFind st.instanceActorMap actorID = none) :
    GetInstanceLabel f Object actorID st =
      some (if (st.instanceCounter + 1) % 2 ^ 32 % 256 < 23
              then castLabel ((st.instanceCounter + 1) % 2 ^ 32 % 256 + 23)
              else castLabel ((st.instanceCounter + 1) % 2 ^ 32 % 256),
            ⟨(st.instanceCounter + 1) % 2 ^ 32,
              (actorID, (st.instanceCounter + 1) % 2 ^ 32) :: st.instanceActorMap⟩) := by
  generalize hc : (st.instanceCounter + 1) % 2 ^ 32 = c
  have hins : mapInsert st.instanceActorMap (actorID, c) = (actorID, c) :: st.instanceActorMap :=
    mapInsert_of_absent _ _ hi
  simp only [GetInstanceLabel, h, hi, if_true, mapAt, hc, hins, mapFind_cons_self]
  by_cases hlt : c % 256 < 23 <;> simp [hlt]

/-- Every call returns: either the statics are kept, or the identifier was absent
and is stored, in front of the old entries, with the incremented counter. -/
theorem GetInstanceLabel_step (f : FString → CityObjectLabel) (Object : UObject)
    (actorID : Int) (st : TaggerStatics) :
    ∃ l st1, GetInstanceLabel f Object actorID st = some (l, st1) ∧
      (st1 = st ∨
        (mapFind st.instanceActorMap actorID = none ∧
          st1 = ⟨(st.instanceCounter + 1) % 2 ^ 32,
            (actorID, (st.instanceCounter + 1) % 2 ^ 32) :: st.instanceActorMap⟩)) := by
  by_cases h : (GetLabelByPath f Object).val = 10
  · cases hi : mapFind st.instanceActorMap actorID with
    | none => exact ⟨_, _, GetInstanceLabel_of_fresh f Object actorID st h hi, Or.inr ⟨rfl, rfl⟩⟩
    | some i => exact ⟨_, _, GetInstanceLabel_of_known f Object actorID st i h hi, Or.inl rfl⟩
  · exact ⟨_, _, GetInstanceLabel_of_not_vehicle f Object actorID st h, Or.inl rfl⟩

/-- A stored entry survives a call. -/
theorem GetInstanceLabel_keeps (f : FString → CityObjectLabel) (Object : UObject)
    (actorID : Int) (st st1 : TaggerStatics) (l : CityObjectLabel)
    (hcall : GetInstanceLabel f Object actorID st = some (l, st1))
    (k : Int) (v : Nat) (hk : mapFind st.instanceActorMap k = some v) :
    mapFind st1.instanceActorMap k = some v := by
  obtain ⟨l2, st2, h2, hst⟩ := GetInstanceLabel_step f Object actorID st
  rw [hcall] at h2
  obtain ⟨-, rfl⟩ : l = l2 ∧ st1 = st2 := by simpa using h2
  rcases hst with rfl | ⟨hnone, rfl⟩
  · exact hk
  · have hne : actorID ≠ k := by
      intro e
      rw [e, hk] at hnone
      exact Option.noConfusion hnone
    simpa [mapFind, hne] using hk

/-- Distinct keys stay distinct through a call. -/
theorem GetInstanceLabel_nodup (f : FString → CityObjectLabel) (Object : UObject)
    (actorID : Int) (st st1 : TaggerStatics) (l : CityObjectLabel)
    (hcall : GetInstanceLabel f Object actorID st = some (l, st1))
    (hnd : (mapKeys st.instanceActorMap).Nodup) :
    (mapKeys st1.instanceActorMap).Nodup := by
  obtain ⟨l2, st2, h2, hst⟩ := GetInstanceLabel_step f Object actorID st
  rw [hcall] at h2
  obtain ⟨-, rfl⟩ : l = l2 ∧ st1 = st2 := by simpa using h2
  rcases hst with rfl | ⟨hnone, rfl⟩
  · exact hnd
  · have hnot : actorID ∉ mapKeys st.instanceActorMap := (mapFind_eq_none_iff _ _).1 hnone
    simpa [mapKeys] using And.intro (by simpa [mapKeys] using hnot) (by simpa [mapKeys] using hnd)

/-- The label of a path is the classification of the segment at index 4, and
`None` when there is no such segment. -/
theorem GetLabelByPath_eq (f : FString → CityObjectLabel) (Object : UObject) :
    GetLabelByPath f Object =
      match (ParseIntoArray Object.GetPathName '/' false)[4]? with
      | some seg => f seg
      | none => CityObjectLabel.None := by
  unfold GetLabelByPath
  by_cases h : (ParseIntoArray Object.GetPathName '/' false).length > 4
  · simp [h, List.getElem?_eq_getElem h]
  · have h2 : (ParseIntoArray Object.GetPathName '/' false).length ≤ 4 := Nat.le_of_not_lt h
    simp [h, List.getElem?_eq_none h2]

/-! ## Sequences of calls -/

theorem callSequence_cons (f : FString → CityObjectLabel) (Object : UObject) (actorID : Int)
    (rest : List (UObject × Int)) (st st1 st2 : TaggerStatics) (l : CityObjectLabel)
    (ls : List CityObjectLabel)
    (h1 : GetInstanceLabel f Object actorID st = some (l, st1))
    (h2 : callSequence f rest st1 = some (ls, st2)) :
    callSequence f ((Object, actorID) :: rest) st = some (l :: ls, st2) := by
  simp [callSequence, h1, h2]

/-- A sequence of calls always runs to its end, returns one label per call, keeps
every stored entry and keeps the keys distinct. -/
theorem callSequence_keeps (f : FString → CityObjectLabel) (calls : List (UObject × Int)) :
    ∀ st : TaggerStatics, ∃ ls st2, callSequence f calls st = some (ls, st2) ∧
      ls.length = calls.length ∧
      (∀ k v, mapFind st.instanceActorMap k = some v →
        mapFind st2.instanceActorMap k = some v) ∧
      ((mapKeys st.instanceActorMap).Nodup → (mapKeys st2.instanceActorMap).Nodup) := by
  induction calls with
  | nil => intro st; exact ⟨[], st, rfl, rfl, fun _ _ h => h, fun h => h⟩
  | cons c rest ih =>
    intro st
    obtain ⟨Object, actorID⟩ := c
    obtain ⟨l, st1, h1, -⟩ := GetInstanceLabel_step f Object actorID st
    obtain ⟨ls, st2, h2, hlen, hkeep, hnd⟩ := ih st1
    refine ⟨l :: ls, st2, callSequence_cons f Object actorID rest st st1 st2 l ls h1 h2, ?_, ?_, ?_⟩
    · simp [hlen]
    · intro k v hk
      exact hkeep k v (GetInstanceLabel_keeps f Object actorID st st1 l h1 k v hk)
    · intro h
      exact hnd (GetInstanceLabel_nodup f Object actorID st st1 l h1 h)

/-- Calls on non-vehicle objects return the path labels and keep the statics. -/
theorem callSequence_of_not_vehicle (f : FString → CityObjectLabel)
    (calls : List (UObject × Int)) (st : TaggerStatics)
    (h : ∀ c ∈ calls, (GetLabelByPath f c.1).val ≠ 10) :
    callSequence f calls st = some (calls.map (fun c => GetLabelByPath f c.1), st) := by
  induction calls with
  | nil => rfl
  | cons c rest ih =>
    obtain ⟨Object, actorID⟩ := c
    have h1 := GetInstanceLabel_of_not_vehicle f Object actorID st
      (h (Object, actorID) (List.mem_cons_self _ _))
    have h2 := ih (fun c hc => h c (List.mem_cons_of_mem _ hc))
    simpa using callSequence_cons f Object actorID rest st st st _ _ h1 h2

/-- First-seen vehicles: when the calls are all on vehicle objects, with pairwise
distinct identifiers none of which is stored yet, and the counter does not reach
2^32, the call at position `k` stores index `counter + k + 1` for its identifier
and returns the label of that index. -/
theorem callSequence_fresh (f : FString → CityObjectLabel) (calls : List (UObject × Int)) :
    ∀ st : TaggerStatics,
      (∀ c ∈ calls, (GetLabelByPath f c.1).val = 10) →
      (calls.map Prod.snd).Nodup →
      (∀ c ∈ calls, mapFind st.instanceActorMap c.2 = none) →
      st.instanceCounter + calls.length < 2 ^ 32 →
      ∃ ls st2, callSequence f calls st = some (ls, st2) ∧
        st2.instanceCounter = st.instanceCounter + calls.length ∧
        ∀ k (c : UObject × Int), calls[k]? = some c →
          ls[k]? = some (labelOfIndex (st.instanceCounter + k + 1)) ∧
          mapFind st2.instanceActorMap c.2 = some (st.instanceCounter + k + 1) := by
  induction calls with
  | nil =>
    intro st _ _ _ _
    exact ⟨[], st, rfl, rfl, fun k c hc => by simp at hc⟩
  | cons c0 rest ih =>
    intro st hveh hnd habs hlt
    obtain ⟨Object, actorID⟩ := c0
    have hlen : ((Object, actorID) :: rest).length = rest.length + 1 := rfl
    rw [hlen] at hlt
    have hmod : (st.instanceCounter + 1) % 2 ^ 32 = st.instanceCounter + 1 :=
      Nat.mod_eq_of_lt (by omega)
    have h1 := GetInstanceLabel_of_fresh f Object actorID st
      (hveh _ (List.mem_cons_self _ _)) (habs _ (List.mem_cons_self _ _))
    rw [hmod] at h1
    have hnd2 : actorID ∉ rest.map Prod.snd ∧ (rest.map Prod.snd).Nodup := by
      simpa using hnd
    obtain ⟨ls, st2, h2, hcnt, hall⟩ :=
      ih ⟨st.instanceCounter + 1, (actorID, st.instanceCounter + 1) :: st.instanceActorMap⟩
        (fun c hc => hveh c (List.mem_cons_of_mem _ hc)) hnd2.2
        (fun c hc => by
          have hne : actorID ≠ c.2 := by
            intro e
            exact hnd2.1 (List.mem_map.2 ⟨c, hc, e.symm⟩)
          simpa [mapFind, hne] using habs c (List.mem_cons_of_mem _ hc))
        (by simp only []; omega)
    obtain ⟨ls3, st3, h3, -, hkeep, -⟩ := callSequence_keeps f rest
      ⟨st.instanceCounter + 1, (actorID, st.instanceCounter + 1) :: st.instanceActorMap⟩
    rw [h2] at h3
    obtain ⟨-, rfl⟩ : ls = ls3 ∧ st2 = st3 := by simpa using h3
    refine ⟨_, st2, callSequence_cons f Object actorID rest st _ st2 _ ls h1 h2, ?_, ?_⟩
    · simp only [] at hcnt
      rw [hcnt, hlen]; omega
    · intro k c hc
      cases k with
      | zero =>
        have hc0 : c = (Object, actorID) := by simpa using hc.symm
        subst hc0
        refine ⟨by simp [labelOfIndex], ?_⟩
        exact hkeep actorID _ (mapFind_cons_self _ _ _)
      | succ k =>
        have hc1 : rest[k]? = some c := by simpa using hc
        obtain ⟨ha, hb⟩ := hall k c hc1
        simp only [] at ha hb
        have e : st.instanceCounter + 1 + k + 1 = st.instanceCounter + (k + 1) + 1 := by omega
        rw [e] at ha hb
        exact ⟨by simpa using ha, hb⟩

theorem callSequence_append (f : FString → CityObjectLabel) (xs ys : List (UObject × Int)) :
    ∀ (st st1 st2 : TaggerStatics) (ls1 ls2 : List CityObjectLabel),
      callSequence f xs st = some (ls1, st1) → callSequence f ys st1 = some (ls2, st2) →
      callSequence f (xs ++ ys) st = some (ls1 ++ ls2, st2) := by
  induction xs with
  | nil =>
    intro st st1 st2 ls1 ls2 h1 h2
    obtain ⟨rfl, rfl⟩ : ls1 = [] ∧ st1 = st := by
      simp only [callSequence, Option.some.injEq, Prod.mk.injEq] at h1
      exact ⟨h1.1.symm, h1.2.symm⟩
    simpa using h2
  | cons c rest ih =>
    intro st st1 st2 ls1 ls2 h1 h2
    obtain ⟨Object, actorID⟩ := c
    obtain ⟨l, sta, ha, -⟩ := GetInstanceLabel_step f Object actorID st
    obtain ⟨lsb, stb, hb, -⟩ := callSequence_keeps f rest sta
    have h3 := callSequence_cons f Object actorID rest st sta stb l lsb ha hb
    rw [h1] at h3
    obtain ⟨rfl, rfl⟩ : ls1 = l :: lsb ∧ st1 = stb := by simpa using h3
    have h4 := ih sta st1 st2 lsb ls2 hb h2
    simpa using callSequence_cons f Object actorID (rest ++ ys) st sta st2 l (lsb ++ ls2) ha h4

theorem labelOfIndex_val (i : Nat) :
    (i % 256 < 23 → (labelOfIndex i).val = i % 256 + 23) ∧
    (23 ≤ i % 256 → (labelOfIndex i).val = i % 256) := by
  have hlt : i % 256 < 256 := Nat.mod_lt _ (by decide)
  constructor
  · intro h
    simp only [labelOfIndex, h, if_true, castLabel]
    exact Nat.mod_eq_of_lt (by omega)
  · intro h
    have h2 : ¬ i % 256 < 23 := by omega
    simp only [labelOfIndex, h2, if_false, castLabel]
    exact Nat.mod_eq_of_lt (by omega)

/-- A call on a vehicle object returns, and the label is the one computed from
the index stored for the identifier after the call; an index stored before the
call is that same index. -/
theorem GetInstanceLabel_vehicle (f : FString → CityObjectLabel) (Object : UObject)
    (actorID : Int) (st : TaggerStatics) (h : (GetLabelByPath f Object).val = 10) :
    ∃ i st1, GetInstanceLabel f Object actorID st = some (labelOfIndex i, st1) ∧
      mapFind st1.instanceActorMap actorID = some i ∧
      (∀ j, mapFind st.instanceActorMap actorID = some j → j = i) := by
  cases hi : mapFind st.instanceActorMap actorID with
  | none =>
    exact ⟨_, _, GetInstanceLabel_of_fresh f Object actorID st h hi, mapFind_cons_self _ _ _,
      fun j hj => Option.noConfusion hj⟩
  | some i =>
    exact ⟨i, st, GetInstanceLabel_of_known f Object actorID st i h hi, hi,
      fun j hj => (Option.some.inj hj).symm⟩

/-! ## The claims -/

/-- C1: `GetInstanceLabel` is stable per identifier. From any statics, a call with
a vehicle object and `actorID`, then any finite sequence of further calls, then
another call with a vehicle object and the same `actorID`: all of them return, and
the last call returns the label of the first. -/
theorem C1_instance_label_stable (f : FString → CityObjectLabel) (st : TaggerStatics)
    (Object Object2 : UObject) (actorID : Int) (calls : List (UObject × Int))
    (h1 : (GetLabelByPath f Object).val = 10) (h2 : (GetLabelByPath f Object2).val = 10) :
    ∃ l st1 ls st2 st3,
      GetInstanceLabel f Object actorID st = some (l, st1) ∧
      callSequence f calls st1 = some (ls, st2) ∧
      GetInstanceLabel f Object2 actorID st2 = some (l, st3) := by
  obtain ⟨i, st1, hcall, hi, -⟩ := GetInstanceLabel_vehicle f Object actorID st h1
  obtain ⟨ls, st2, hseq, -, hkeep, -⟩ := callSequence_keeps f calls st1
  obtain ⟨j, st3, hcall2, -, hj⟩ := GetInstanceLabel_vehicle f Object2 actorID st2 h2
  have hij : i = j := hj i (hkeep actorID i hi)
  subst hij
  exact ⟨_, st1, ls, st2, st3, hcall, hseq, hcall2⟩

theorem C1_instance_label_stable_witness :
    (GetLabelByPath vehiclesOnly carObject).val = 10 ∧
    ∃ l st1 ls st2 st3,
      GetInstanceLabel vehiclesOnly carObject 7 ⟨300, [(4, 300)]⟩ = some (l, st1) ∧
      callSequence vehiclesOnly [(carObject, 3), (roadObject, 7), (carObject, 7)] st1
        = some (ls, st2) ∧
      GetInstanceLabel vehiclesOnly carObject 7 st2 = some (l, st3) :=
  ⟨by decide, C1_instance_label_stable vehiclesOnly ⟨300, [(4, 300)]⟩ carObject carObject 7
    [(carObject, 3), (roadObject, 7), (carObject, 7)] (by decide) (by decide)⟩

/-- C2: from the initial statics, for distinct identifiers `a` and `b` queried
with vehicle objects, `a` first: whatever non-vehicle calls come before, between
and after, the call for `a` returns 24, the call for `b` returns 25, and the
final map stores index 1 for `a` and index 2 for `b`, the counter being 2. -/
theorem C2_first_seen_order (f : FString → CityObjectLabel) (a b : Int) (Oa Ob : UObject)
    (pre mid post : List (UObject × Int)) (hab : a ≠ b)
    (ha : (GetLabelByPath f Oa).val = 10) (hb : (GetLabelByPath f Ob).val = 10)
    (hpre : ∀ c ∈ pre, (GetLabelByPath f c.1).val ≠ 10)
    (hmid : ∀ c ∈ mid, (GetLabelByPath f c.1).val ≠ 10)
    (hpost : ∀ c ∈ post, (GetLabelByPath f c.1).val ≠ 10) :
    callSequence f (pre ++ (Oa, a) :: (mid ++ (Ob, b) :: post)) TaggerStatics.initial
      = some (pre.map (fun c => GetLabelByPath f c.1) ++ 24 ::
                (mid.map (fun c => GetLabelByPath f c.1) ++ 25 ::
                  post.map (fun c => GetLabelByPath f c.1)),
              ⟨2, [(b, 2), (a, 1)]⟩) ∧
    mapFind [(b, 2), (a, 1)] a = some 1 ∧ mapFind [(b, 2), (a, 1)] b = some 2 := by
  have hba : b ≠ a := fun e => hab e.symm
  have ca : GetInstanceLabel f Oa a TaggerStatics.initial = some (24, ⟨1, [(a, 1)]⟩) :=
    GetInstanceLabel_of_fresh f Oa a TaggerStatics.initial ha rfl
  have cb : GetInstanceLabel f Ob b ⟨1, [(a, 1)]⟩ = some (25, ⟨2, [(b, 2), (a, 1)]⟩) :=
    GetInstanceLabel_of_fresh f Ob b ⟨1, [(a, 1)]⟩ hb (by simp [mapFind, hab])
  have s3 := callSequence_of_not_vehicle f post ⟨2, [(b, 2), (a, 1)]⟩ hpost
  have s2 := callSequence_append f mid ((Ob, b) :: post) _ _ _ _ _
    (callSequence_of_not_vehicle f mid ⟨1, [(a, 1)]⟩ hmid)
    (callSequence_cons f Ob b post _ _ _ _ _ cb s3)
  have s1 := callSequence_append f pre ((Oa, a) :: (mid ++ (Ob, b) :: post)) _ _ _ _ _
    (callSequence_of_not_vehicle f pre TaggerStatics.initial hpre)
    (callSequence_cons f Oa a _ _ _ _ _ _ ca s2)
  exact ⟨s1, by simp [mapFind, hba], by simp [mapFind]⟩

theorem C2_first_seen_order_witness :
    (7 : Int) ≠ 3 ∧
    callSequence vehiclesOnly
        ([(roadObject, 7)] ++ (carObject, 7) :: ([(shortObject, 3), (roadObject, 3)] ++
          (carObject, 3) :: [(roadObject, 9)])) TaggerStatics.initial
      = some ([(roadObject, (7 : Int))].map (fun c => GetLabelByPath vehiclesOnly c.1) ++ 24 ::
                ([(shortObject, (3 : Int)), (roadObject, 3)].map
                    (fun c => GetLabelByPath vehiclesOnly c.1) ++ 25 ::
                  [(roadObject, (9 : Int))].map (fun c => GetLabelByPath vehiclesOnly c.1)),
              ⟨2, [(3, 2), (7, 1)]⟩) ∧
    mapFind [(3, 2), (7, 1)] 7 = some 1 ∧ mapFind [(3, 2), (7, 1)] 3 = some 2 :=
  ⟨by decide, C2_first_seen_order vehiclesOnly 7 3 carObject carObject
    [(roadObject, 7)] [(shortObject, 3), (roadObject, 3)] [(roadObject, 9)]
    (by decide) (by decide) (by decide) (by decide) (by decide) (by decide)⟩

/-- C3: every call returns a label whose value is in 0..255; for a vehicle object
the identifier has a stored index `i` after the call (the one it had before, if
any), and the label value is `i % 256 + 23`, within 23..45, when `i % 256 < 23`,
and exactly `i % 256` when `i % 256 ≥ 23`. -/
theorem C3_label_range (f : FString → CityObjectLabel) (Object : UObject) (actorID : Int)
    (st : TaggerStatics) :
    ∃ l st1, GetInstanceLabel f Object actorID st = some (l, st1) ∧
      0 ≤ l.val ∧ l.val ≤ 255 ∧
      ((GetLabelByPath f Object).val = 10 →
        ∃ i, mapFind st1.instanceActorMap actorID = some i ∧
          (∀ j, mapFind st.instanceActorMap actorID = some j → j = i) ∧
          (i % 256 < 23 → l.val = i % 256 + 23 ∧ 23 ≤ l.val ∧ l.val ≤ 45) ∧
          (23 ≤ i % 256 → l.val = i % 256)) := by
  obtain ⟨l, st1, hcall, -⟩ := GetInstanceLabel_step f Object actorID st
  refine ⟨l, st1, hcall, Nat.zero_le _, Nat.le_of_lt_succ l.isLt, ?_⟩
  intro hveh
  obtain ⟨i, st2, hcall2, hi, hj⟩ := GetInstanceLabel_vehicle f Object actorID st hveh
  rw [hcall] at hcall2
  obtain ⟨rfl, rfl⟩ : l = labelOfIndex i ∧ st1 = st2 := by simpa using hcall2
  refine ⟨i, hi, hj, ?_, (labelOfIndex_val i).2⟩
  intro hlt
  have hv := (labelOfIndex_val i).1 hlt
  exact ⟨hv, by omega, by omega⟩

/-- C4: when the path name of the object, split on `/` with empty segments kept,
has fewer than 5 segments, `GetLabelByPath` returns `None`, whatever the folder
classifier `GetLabelByFolderName` is: the classifier has no part in the result. -/
theorem C4_short_path_none (f : FString → CityObjectLabel) (Object : UObject)
    (h : (ParseIntoArray Object.GetPathName '/' false).length < 5) :
    GetLabelByPath f Object = CityObjectLabel.None := by
  have h2 : ¬ (ParseIntoArray Object.GetPathName '/' false).length > 4 := by omega
  simp [GetLabelByPath, h2]

theorem C4_short_path_none_witness :
    (ParseIntoArray shortObject.GetPathName '/' false).length < 5 ∧
    GetLabelByPath vehiclesOnly shortObject = CityObjectLabel.None :=
  ⟨by decide, C4_short_path_none vehiclesOnly shortObject (by decide)⟩

/-- C5: when the path name of the object, split on `/` with empty segments kept,
has at least 5 segments, `GetLabelByPath` returns `GetLabelByFolderName` of the
segment at index 4; an object whose path has the same segment at index 4 gets the
same label, whatever its other segments are; and a path that starts with `/` has
the empty string as its first segment. -/
theorem C5_fifth_segment (f : FString → CityObjectLabel) (Object : UObject)
    (h : 5 ≤ (ParseIntoArray Object.GetPathName '/' false).length) :
    (∃ seg, (ParseIntoArray Object.GetPathName '/' false)[4]? = some seg ∧
      GetLabelByPath f Object = f seg) ∧
    (∀ Object2 : UObject,
      (ParseIntoArray Object2.GetPathName '/' false)[4]?
        = (ParseIntoArray Object.GetPathName '/' false)[4]? →
      GetLabelByPath f Object2 = GetLabelByPath f Object) ∧
    (∀ rest : FString, (ParseIntoArray ('/' :: rest) '/' false)[0]? = some []) := by
  have h4 : 4 < (ParseIntoArray Object.GetPathName '/' false).length := by omega
  refine ⟨⟨(ParseIntoArray Object.GetPathName '/' false).get ⟨4, h4⟩, ?_, ?_⟩, ?_, ?_⟩
  · exact List.getElem?_eq_getElem h4
  · simp [GetLabelByPath, h4]
  · intro Object2 he
    rw [GetLabelByPath_eq f Object2, GetLabelByPath_eq f Object, he]
  · intro rest
    simp [ParseIntoArray, parseLoop]

theorem C5_fifth_segment_witness :
    5 ≤ (ParseIntoArray carObject.GetPathName '/' false).length ∧
    ((∃ seg, (ParseIntoArray carObject.GetPathName '/' false)[4]? = some seg ∧
      GetLabelByPath vehiclesOnly carObject = vehiclesOnly seg) ∧
    (∀ Object2 : UObject,
      (ParseIntoArray Object2.GetPathName '/' false)[4]?
        = (ParseIntoArray carObject.GetPathName '/' false)[4]? →
      GetLabelByPath vehiclesOnly Object2 = GetLabelByPath vehiclesOnly carObject) ∧
    (∀ rest : FString, (ParseIntoArray ('/' :: rest) '/' false)[0]? = some [])) :=
  ⟨by decide, C5_fifth_segment vehiclesOnly carObject (by decide)⟩

/-- C6: for an object whose path label is not 10, `GetInstanceLabel` returns
exactly that path label, for every identifier and every statics (which it leaves
as they are). -/
theorem C6_non_vehicle_passthrough (f : FString → CityObjectLabel) (Object : UObject)
    (actorID : Int) (st : TaggerStatics) (h : (GetLabelByPath f Object).val ≠ 10) :
    GetInstanceLabel f Object actorID st = some (GetLabelByPath f Object, st) :=
  GetInstanceLabel_of_not_vehicle f Object actorID st h

theorem C6_non_vehicle_passthrough_witness :
    (GetLabelByPath vehiclesOnly roadObject).val ≠ 10 ∧
    GetInstanceLabel vehiclesOnly roadObject 5 ⟨3, [(5, 2), (1, 1)]⟩
      = some (GetLabelByPath vehiclesOnly roadObject, ⟨3, [(5, 2), (1, 1)]⟩) :=
  ⟨by decide, C6_non_vehicle_passthrough vehiclesOnly roadObject 5 ⟨3, [(5, 2), (1, 1)]⟩
    (by decide)⟩

/-- C7: for a vehicle object, every call returns a label whose value is in
23..255: it is never one of the codes 0..22, so never `None` and never the
vehicle code 10. -/
theorem C7_vehicle_label_not_reserved (f : FString → CityObjectLabel) (Object : UObject)
    (actorID : Int) (st : TaggerStatics) (h : (GetLabelByPath f Object).val = 10) :
    ∃ l st1, GetInstanceLabel f Object actorID st = some (l, st1) ∧
      23 ≤ l.val ∧ l.val ≤ 255 ∧ l ≠ CityObjectLabel.None ∧ l.val ≠ 10 := by
  obtain ⟨i, st1, hcall, -, -⟩ := GetInstanceLabel_vehicle f Object actorID st h
  have hge : 23 ≤ (labelOfIndex i).val := by
    by_cases hlt : i % 256 < 23
    · rw [(labelOfIndex_val i).1 hlt]; omega
    · rw [(labelOfIndex_val i).2 (by omega)]; omega
  refine ⟨_, st1, hcall, hge, Nat.le_of_lt_succ (labelOfIndex i).isLt, ?_, by omega⟩
  intro e
  rw [e] at hge
  exact absurd hge (by decide)

theorem C7_vehicle_label_not_reserved_witness :
    (GetLabelByPath vehiclesOnly carObject).val = 10 ∧
    ∃ l st1, GetInstanceLabel vehiclesOnly carObject 8 ⟨256, [(8, 256)]⟩ = some (l, st1) ∧
      23 ≤ l.val ∧ l.val ≤ 255 ∧ l ≠ CityObjectLabel.None ∧ l.val ≠ 10 :=
  ⟨by decide, C7_vehicle_label_not_reserved vehiclesOnly carObject 8 ⟨256, [(8, 256)]⟩
    (by decide)⟩

/-- C8: the instance map is insert-only and single-valued. Every call returns;
an identifier stored before the call is stored after it with the same index and
every old entry is still an entry; an identifier stored after the call is the
queried one or was stored before, and the map grows by at most one entry; keys
that were pairwise distinct stay so, and after any sequence of calls from the
initial statics the keys are pairwise distinct (one entry per identifier). -/
theorem C8_map_insert_only (f : FString → CityObjectLabel) (Object : UObject)
    (actorID : Int) (st : TaggerStatics) :
    ∃ l st1, GetInstanceLabel f Object actorID st = some (l, st1) ∧
      (∀ k v, mapFind st.instanceActorMap k = some v →
        mapFind st1.instanceActorMap k = some v) ∧
      (∀ p ∈ st.instanceActorMap, p ∈ st1.instanceActorMap) ∧
      (∀ k, mapFind st1.instanceActorMap k ≠ none →
        k = actorID ∨ mapFind st.instanceActorMap k ≠ none) ∧
      st1.instanceActorMap.length ≤ st.instanceActorMap.length + 1 ∧
      ((mapKeys st.instanceActorMap).Nodup → (mapKeys st1.instanceActorMap).Nodup) ∧
      (∀ calls : List (UObject × Int), ∃ ls st2,
        callSequence f calls TaggerStatics.initial = some (ls, st2) ∧
        (mapKeys st2.instanceActorMap).Nodup) := by
  obtain ⟨l, st1, hcall, hst⟩ := GetInstanceLabel_step f Object actorID st
  refine ⟨l, st1, hcall, GetInstanceLabel_keeps f Object actorID st st1 l hcall, ?_, ?_, ?_,
    GetInstanceLabel_nodup f Object actorID st st1 l hcall, ?_⟩
  · rcases hst with rfl | ⟨-, rfl⟩
    · exact fun p hp => hp
    · exact fun p hp => List.mem_cons_of_mem _ hp
  · rcases hst with rfl | ⟨-, rfl⟩
    · exact fun k hk => Or.inr hk
    · intro k hk
      by_cases e : actorID = k
      · exact Or.inl e.symm
      · exact Or.inr (by simpa [mapFind, e] using hk)
  · rcases hst with rfl | ⟨-, rfl⟩
    · exact Nat.le_succ _
    · exact Nat.le_refl _
  · intro calls
    obtain ⟨ls, st2, hseq, -, -, hnd⟩ := callSequence_keeps f calls TaggerStatics.initial
    exact ⟨ls, st2, hseq, hnd List.nodup_nil⟩

/-- C9: instance indices wrap at 256 without any check. In any statics, a vehicle
whose identifier has stored index `i` and a vehicle whose identifier has stored
index `i + 256` get the same label; every call returns (none signals an error);
and from the initial statics, querying at least 257 (and fewer than 2^32) new
vehicle identifiers gives the label 24 to the 1st and to the 257th. -/
theorem C9_wrap_at_256 (f : FString → CityObjectLabel) :
    (∀ (st : TaggerStatics) (Oa Ob : UObject) (a b : Int) (i : Nat),
      (GetLabelByPath f Oa).val = 10 → (GetLabelByPath f Ob).val = 10 →
      mapFind st.instanceActorMap a = some i →
      mapFind st.instanceActorMap b = some (i + 256) →
      ∃ l, GetInstanceLabel f Oa a st = some (l, st) ∧
        GetInstanceLabel f Ob b st = some (l, st)) ∧
    (∀ (st : TaggerStatics) (Object : UObject) (actorID : Int),
      (GetInstanceLabel f Object actorID st).isSome = true) ∧
    (∀ calls : List (UObject × Int),
      (∀ c ∈ calls, (GetLabelByPath f c.1).val = 10) →
      (calls.map Prod.snd).Nodup → 257 ≤ calls.length → calls.length < 2 ^ 32 →
      ∃ ls st2, callSequence f calls TaggerStatics.initial = some (ls, st2) ∧
        ls[0]? = some 24 ∧ ls[256]? = some 24) := by
  refine ⟨?_, ?_, ?_⟩
  · intro st Oa Ob a b i ha hb hia hib
    refine ⟨labelOfIndex i, GetInstanceLabel_of_known f Oa a st i ha hia, ?_⟩
    have e : labelOfIndex (i + 256) = labelOfIndex i := by
      simp [labelOfIndex]
    rw [← e]
    exact GetInstanceLabel_of_known f Ob b st (i + 256) hb hib
  · intro st Object actorID
    obtain ⟨l, st1, hcall, -⟩ := GetInstanceLabel_step f Object actorID st
    simp [hcall]
  · intro calls hveh hnd hlen hlt
    obtain ⟨ls, st2, hseq, -, hall⟩ := callSequence_fresh f calls TaggerStatics.initial hveh hnd
      (fun _ _ => rfl) (by simpa [TaggerStatics.initial] using hlt)
    have h0 : 0 < calls.length := by omega
    have h256 : 256 < calls.length := by omega
    refine ⟨ls, st2, hseq, ?_, ?_⟩
    · exact (hall 0 _ (List.getElem?_eq_getElem h0)).1
    · exact (hall 256 _ (List.getElem?_eq_getElem h256)).1

/-- C10: counterexample to the claim as worded. From the initial statics, the 24
distinct identifiers 0, 1, ..., 23 queried in this order with a vehicle object
get the labels 24, 25, ..., 45, 23, 24: among the first 5000 first-seen vehicles
the labels are not pairwise distinct, the 24th vehicle already repeats the label
of the 1st. -/
theorem C10_labels_repeat_at_24 :
    (firstSeenVehicles 24).length ≤ 5000 ∧
    ((firstSeenVehicles 24).map Prod.snd).Nodup ∧
    (∀ c ∈ firstSeenVehicles 24, (GetLabelByPath vehiclesOnly c.1).val = 10) ∧
    (callSequence vehiclesOnly (firstSeenVehicles 24) TaggerStatics.initial).map Prod.fst
      = some [24, 25, 26, 27, 28, 29, 30, 31, 32, 33, 34, 35, 36, 37, 38, 39, 40, 41, 42,
          43, 44, 45, 23, 24] ∧
    (∃ ls, (callSequence vehiclesOnly (firstSeenVehicles 24) TaggerStatics.initial).map Prod.fst
        = some ls ∧ ls[0]? = some 24 ∧ ls[23]? = some 24 ∧ ¬ ls.Nodup) :=
  ⟨by decide, by decide, by decide, by decide,
    [24, 25, 26, 27, 28, 29, 30, 31, 32, 33, 34, 35, 36, 37, 38, 39, 40, 41, 42,
      43, 44, 45, 23, 24], by decide, by decide, by decide, by decide⟩

/-! ## Tagged components -/

theorem castLabel_val_of_lt (n : Nat) (h : n < 256) : (castLabel n).val = n :=
  Nat.mod_eq_of_lt h

theorem castLabel_fin (l : Fin 256) : castLabel l.val = l :=
  Fin.ext (Nat.mod_eq_of_lt l.isLt)

/-- C11: `GetTagOfTaggedComponent` returns the label whose numeric value is the
stencil value of the component, for every 8-bit stencil value (recognized label or
not: every value comes back as itself) and whatever the render flag is; it is a
function of the component that yields only a label, so no component is changed;
and `MatchComponent` is true exactly when the tag equals that label. -/
theorem C11_tag_accessor (Component : UPrimitiveComponent) (Tag : CityObjectLabel) :
    (GetTagOfTaggedComponent Component).val = Component.CustomDepthStencilValue.val ∧
    (∀ (v : Fin 256) (b : Bool), (GetTagOfTaggedComponent ⟨v, b⟩).val = v.val) ∧
    (MatchComponent Component Tag = true ↔ Tag = GetTagOfTaggedComponent Component) := by
  refine ⟨?_, ?_, ?_⟩
  · exact castLabel_val_of_lt _ Component.CustomDepthStencilValue.isLt
  · intro v b
    exact castLabel_val_of_lt _ v.isLt
  · simp [MatchComponent]

/-- C12: `SetStencilValue` leaves the component with the numeric value of the
label as stencil value and the requested boolean as render flag, whatever the
component was before (two different components end up equal), and
`GetTagOfTaggedComponent` then returns the label. -/
theorem C12_set_stencil_value (Component : UPrimitiveComponent) (Label : CityObjectLabel)
    (bSetRenderCustomDepth : Bool) :
    (SetStencilValue Component Label bSetRenderCustomDepth).CustomDepthStencilValue.val
      = Label.val ∧
    (SetStencilValue Component Label bSetRenderCustomDepth).bRenderCustomDepth
      = bSetRenderCustomDepth ∧
    (∀ Other : UPrimitiveComponent,
      SetStencilValue Other Label bSetRenderCustomDepth
        = SetStencilValue Component Label bSetRenderCustomDepth) ∧
    GetTagOfTaggedComponent (SetStencilValue Component Label bSetRenderCustomDepth)
      = Label := by
  refine ⟨rfl, rfl, fun _ => rfl, ?_⟩
  exact castLabel_fin Label

theorem GetLabelByFolderName_of_no_match (isMatch : FString → FString → Bool)
    (table : List (FString × CityObjectLabel)) (String : FString)
    (h : ∀ e ∈ table, isMatch e.1 String = false) :
    GetLabelByFolderName isMatch table String = CityObjectLabel.None := by
  have hnone : table.find? (fun e => isMatch e.1 String) = none := by
    rw [List.find?_eq_none]
    intro e he
    simp [h e he]
  simp [GetLabelByFolderName, hnone]

/-- C13: a folder name that no entry of the table matches gets the label `None`
from `GetLabelByFolderName`; with exact matching this is every name that is not
a key of the table; and `GetLabelByPath` returns `None` for every object whose
path has such a name as its segment at index 4. -/
theorem C13_unknown_folder_none (isMatch : FString → FString → Bool)
    (table : List (FString × CityObjectLabel)) (String : FString)
    (h : ∀ e ∈ table, isMatch e.1 String = false) :
    GetLabelByFolderName isMatch table String = CityObjectLabel.None ∧
    (∀ Name : FString, Name ∉ table.map Prod.fst →
      GetLabelByFolderName exactMatch table Name = CityObjectLabel.None) ∧
    (∀ Object : UObject,
      (ParseIntoArray Object.GetPathName '/' false)[4]? = some String →
      GetLabelByPath (GetLabelByFolderName isMatch table) Object = CityObjectLabel.None) := by
  have h1 := GetLabelByFolderName_of_no_match isMatch table String h
  refine ⟨h1, ?_, ?_⟩
  · intro Name hName
    apply GetLabelByFolderName_of_no_match
    intro e he
    have hne : e.1 ≠ Name := by
      intro e1
      exact hName (List.mem_map.2 ⟨e, he, e1⟩)
    simp [exactMatch, hne]
  · intro Object hseg
    rw [GetLabelByPath_eq, hseg]
    exact h1

theorem C13_unknown_folder_none_witness :
    (∀ e ∈ sampleTable, exactMatch e.1 "Props".toList = false) ∧
    GetLabelByFolderName exactMatch sampleTable "Props".toList = CityObjectLabel.None ∧
    GetLabelByPath (GetLabelByFolderName exactMatch sampleTable) benchObject
      = CityObjectLabel.None :=
  have h := C13_unknown_folder_none exactMatch sampleTable "Props".toList (by decide)
  ⟨by decide, h.1, h.2.2 benchObject (by decide)⟩

/-! ## First-seen order and the stored indices -/

theorem numbered_append (xs : List Int) (a : Int) :
    ∀ n : Nat, numbered n (xs ++ [a]) = numbered n xs ++ [(a, n + xs.length)] := by
  induction xs with
  | nil => intro n; simp [numbered]
  | cons x rest ih =>
    intro n
    have e : n + 1 + rest.length = n + (rest.length + 1) := by omega
    simp [numbered, ih, e]

theorem numbered_length (xs : List Int) : ∀ n : Nat, (numbered n xs).length = xs.length := by
  induction xs with
  | nil => intro n; rfl
  | cons x rest ih => intro n; simp [numbered, ih]

theorem mapKeys_numbered (xs : List Int) : ∀ n : Nat, mapKeys (numbered n xs) = xs := by
  induction xs with
  | nil => intro n; rfl
  | cons x rest ih =>
    intro n
    have h := ih (n + 1)
    simp only [mapKeys] at h
    simp [numbered, mapKeys, h]

theorem numbered_values (xs : List Int) :
    ∀ n : Nat, (numbered n xs).map Prod.snd = List.range' n xs.length := by
  induction xs with
  | nil => intro n; rfl
  | cons x rest ih =>
    intro n
    simp [numbered, ih, List.range'_succ]

theorem numbered_mem (xs : List Int) :
    ∀ (n k : Nat) (a : Int), xs[k]? = some a → (a, n + k) ∈ numbered n xs := by
  induction xs with
  | nil => intro n k a h; simp at h
  | cons x rest ih =>
    intro n k a h
    cases k with
    | zero =>
      have hx : x = a := by simpa using h
      simp [numbered, hx]
    | succ k =>
      have hr : rest[k]? = some a := by simpa using h
      have hm := ih (n + 1) k a hr
      have e : n + 1 + k = n + (k + 1) := by omega
      rw [e] at hm
      exact List.mem_cons_of_mem _ hm

theorem mapFind_of_mem_nodup (m : StdMap) (k : Int) (v : Nat)
    (hnd : (mapKeys m).Nodup) (hmem : (k, v) ∈ m) : mapFind m k = some v := by
  induction m with
  | nil => simp at hmem
  | cons p rest ih =>
    obtain ⟨k0, v0⟩ := p
    have hnd2 : k0 ∉ mapKeys rest ∧ (mapKeys rest).Nodup := by
      simpa [mapKeys] using hnd
    rcases List.mem_cons.1 hmem with heq | hin
    · obtain ⟨rfl, rfl⟩ : k = k0 ∧ v = v0 := by simpa using heq
      exact mapFind_cons_self _ _ _
    · have hne : k0 ≠ k := by
        intro e
        apply hnd2.1
        rw [e]
        exact List.mem_map.2 ⟨(k, v), hin, rfl⟩
      rw [mapFind_cons_of_ne _ _ _ _ hne]
      exact ih hnd2.2 hin

theorem firstSeenFrom_length_ge (f : FString → CityObjectLabel) (calls : List (UObject × Int)) :
    ∀ seen : List Int, seen.length ≤ (firstSeenFrom f seen calls).length := by
  induction calls with
  | nil => intro seen; exact Nat.le_refl _
  | cons c rest ih =>
    intro seen
    obtain ⟨Object, actorID⟩ := c
    by_cases h : (GetLabelByPath f Object).val = 10 ∧ actorID ∉ seen
    · have h2 := ih (seen ++ [actorID])
      rw [firstSeenFrom, if_pos h]
      simp only [List.length_append, List.length_singleton] at h2
      omega
    · rw [firstSeenFrom, if_neg h]
      exact ih seen

/-- A call that is not a first-seen vehicle query keeps the statics: the object
is not a vehicle, or the identifier is stored already. -/
theorem GetInstanceLabel_same_statics (f : FString → CityObjectLabel) (Object : UObject)
    (actorID : Int) (st : TaggerStatics)
    (h : (GetLabelByPath f Object).val ≠ 10 ∨ mapFind st.instanceActorMap actorID ≠ none) :
    ∃ l, GetInstanceLabel f Object actorID st = some (l, st) := by
  by_cases hveh : (GetLabelByPath f Object).val = 10
  · cases hi : mapFind st.instanceActorMap actorID with
    | none =>
      rcases h with h | h
      · exact absurd hveh h
      · exact absurd hi h
    | some i => exact ⟨_, GetInstanceLabel_of_known f Object actorID st i hveh hi⟩
  · exact ⟨_, GetInstanceLabel_of_not_vehicle f Object actorID st hveh⟩

/-- The statics after a sequence of calls, in terms of the first-seen order: when
the map holds the identifiers `seen` numbered from 1 in the order of the list
(newest entry in front) and the counter is their number, the same holds after
the calls for the extended first-seen list, as long as that list has fewer than
2^32 identifiers. -/
theorem callSequence_numbered (f : FString → CityObjectLabel) (calls : List (UObject × Int)) :
    ∀ (seen : List Int) (st : TaggerStatics),
      st.instanceActorMap = (numbered 1 seen).reverse →
      st.instanceCounter = seen.length → seen.Nodup →
      (firstSeenFrom f seen calls).length < 2 ^ 32 →
      ∃ ls st2, callSequence f calls st = some (ls, st2) ∧
        st2.instanceActorMap = (numbered 1 (firstSeenFrom f seen calls)).reverse ∧
        st2.instanceCounter = (firstSeenFrom f seen calls).length ∧
        (firstSeenFrom f seen calls).Nodup := by
  induction calls with
  | nil =>
    intro seen st hmap hcnt hnd _
    exact ⟨[], st, rfl, hmap, hcnt, hnd⟩
  | cons c rest ih =>
    intro seen st hmap hcnt hnd hlt
    obtain ⟨Object, actorID⟩ := c
    have hkeys : mapKeys st.instanceActorMap = seen.reverse := by
      rw [hmap]
      simp only [mapKeys, List.map_reverse]
      have h := mapKeys_numbered seen 1
      simp only [mapKeys] at h
      rw [h]
    have hfind : mapFind st.instanceActorMap actorID = none ↔ actorID ∉ seen := by
      rw [mapFind_eq_none_iff, hkeys, List.mem_reverse]
    by_cases h : (GetLabelByPath f Object).val = 10 ∧ actorID ∉ seen
    · rw [firstSeenFrom, if_pos h] at hlt
      have hge := firstSeenFrom_length_ge f rest (seen ++ [actorID])
      simp only [List.length_append, List.length_singleton] at hge
      have hmod : (st.instanceCounter + 1) % 2 ^ 32 = seen.length + 1 := by
        rw [hcnt]
        exact Nat.mod_eq_of_lt (by omega)
      have h1 := GetInstanceLabel_of_fresh f Object actorID st h.1 (hfind.2 h.2)
      rw [hmod] at h1
      have hnd2 : (seen ++ [actorID]).Nodup := by
        rw [List.nodup_append]
        refine ⟨hnd, List.nodup_singleton _, ?_⟩
        intro x hx hx2
        have e : x = actorID := by simpa using hx2
        exact h.2 (e ▸ hx)
      obtain ⟨ls, st2, h2, hmap2, hcnt2, hnd3⟩ :=
        ih (seen ++ [actorID]) ⟨seen.length + 1, (actorID, seen.length + 1) :: st.instanceActorMap⟩
          (by
            have e : 1 + seen.length = seen.length + 1 := by omega
            simp only [numbered_append, List.reverse_append, List.reverse_cons,
              List.reverse_nil, List.nil_append, List.singleton_append, hmap, e])
          (by simp) hnd2 hlt
      refine ⟨_, st2, callSequence_cons f Object actorID rest st _ st2 _ ls h1 h2, ?_, ?_, ?_⟩
      · rw [firstSeenFrom, if_pos h]; exact hmap2
      · rw [firstSeenFrom, if_pos h]; exact hcnt2
      · rw [firstSeenFrom, if_pos h]; exact hnd3
    · rw [firstSeenFrom, if_neg h] at hlt
      have hsame : (GetLabelByPath f Object).val ≠ 10 ∨
          mapFind st.instanceActorMap actorID ≠ none := by
        by_cases hveh : (GetLabelByPath f Object).val = 10
        · right
          intro hn
          exact h ⟨hveh, hfind.1 hn⟩
        · exact Or.inl hveh
      obtain ⟨l, h1⟩ := GetInstanceLabel_same_statics f Object actorID st hsame
      obtain ⟨ls, st2, h2, hmap2, hcnt2, hnd3⟩ := ih seen st hmap hcnt hnd hlt
      refine ⟨_, st2, callSequence_cons f Object actorID rest st st st2 l ls h1 h2, ?_, ?_, ?_⟩
      · rw [firstSeenFrom, if_neg h]; exact hmap2
      · rw [firstSeenFrom, if_neg h]; exact hcnt2
      · rw [firstSeenFrom, if_neg h]; exact hnd3

/-- From the initial statics, after calls with fewer than 2^32 first-seen
vehicle identifiers: the map holds these identifiers numbered from 1 in
first-seen order, the counter is their number, and the identifier at position
`k` of the first-seen order (counted from 0) has stored index `k + 1`. -/
theorem callSequence_initial (f : FString → CityObjectLabel) (calls : List (UObject × Int))
    (hlt : (firstSeen f calls).length < 2 ^ 32) :
    ∃ ls st, callSequence f calls TaggerStatics.initial = some (ls, st) ∧
      st.instanceActorMap = (numbered 1 (firstSeen f calls)).reverse ∧
      st.instanceCounter = (firstSeen f calls).length ∧
      (firstSeen f calls).Nodup ∧
      (mapKeys st.instanceActorMap).Nodup ∧
      (∀ k a, (firstSeen f calls)[k]? = some a →
        mapFind st.instanceActorMap a = some (k + 1)) := by
  obtain ⟨ls, st, hseq, hmap, hcnt, hnd⟩ :
      ∃ ls st, callSequence f calls TaggerStatics.initial = some (ls, st) ∧
        st.instanceActorMap = (numbered 1 (firstSeen f calls)).reverse ∧
        st.instanceCounter = (firstSeen f calls).length ∧ (firstSeen f calls).Nodup :=
    callSequence_numbered f calls [] TaggerStatics.initial rfl rfl List.nodup_nil hlt
  have hkeys : mapKeys st.instanceActorMap = (firstSeen f calls).reverse := by
    rw [hmap]
    simp only [mapKeys, List.map_reverse]
    have h := mapKeys_numbered (firstSeen f calls) 1
    simp only [mapKeys] at h
    rw [h]
  have hknd : (mapKeys st.instanceActorMap).Nodup := by
    rw [hkeys]
    exact List.nodup_reverse.2 hnd
  refine ⟨ls, st, hseq, hmap, hcnt, hnd, hknd, ?_⟩
  intro k a hk
  apply mapFind_of_mem_nodup _ _ _ hknd
  rw [hmap, List.mem_reverse]
  have hm := numbered_mem (firstSeen f calls) 1 k a hk
  have e : 1 + k = k + 1 := by omega
  rw [e] at hm
  exact hm

/-- A vehicle query after any calls from the initial statics: when the queried
identifier is at position `k` (from 0) of the first-seen order of all the calls,
this query included, the label returned is the label of the index `k + 1`. -/
theorem query_label (f : FString → CityObjectLabel) (pre : List (UObject × Int))
    (Object : UObject) (actorID : Int) (hveh : (GetLabelByPath f Object).val = 10)
    (hlt : (firstSeen f (pre ++ [(Object, actorID)])).length < 2 ^ 32) :
    ∃ ls st l st2, callSequence f pre TaggerStatics.initial = some (ls, st) ∧
      GetInstanceLabel f Object actorID st = some (l, st2) ∧
      ∀ k, (firstSeen f (pre ++ [(Object, actorID)]))[k]? = some actorID →
        l = labelOfIndex (k + 1) := by
  obtain ⟨ls, st, hpre, -, -, -⟩ := callSequence_keeps f pre TaggerStatics.initial
  obtain ⟨i, st2, hcall, hi, -⟩ := GetInstanceLabel_vehicle f Object actorID st hveh
  have hall := callSequence_append f pre [(Object, actorID)] _ _ _ _ _ hpre
    (callSequence_cons f Object actorID [] st st2 st2 _ [] hcall rfl)
  obtain ⟨ls3, st3, hseq3, -, -, -, -, hidx⟩ :=
    callSequence_initial f (pre ++ [(Object, actorID)]) hlt
  rw [hall] at hseq3
  obtain ⟨-, rfl⟩ : ls ++ [labelOfIndex i] = ls3 ∧ st2 = st3 := by simpa using hseq3
  refine ⟨ls, st, _, st2, hpre, hcall, ?_⟩
  intro k hk
  have h2 := hidx k actorID hk
  rw [hi] at h2
  rw [Option.some.inj h2]

theorem labelOfIndex_ge (i : Nat) : 23 ≤ (labelOfIndex i).val := by
  by_cases hlt : i % 256 < 23
  · rw [(labelOfIndex_val i).1 hlt]; omega
  · rw [(labelOfIndex_val i).2 (by omega)]; omega

/-- Calls on vehicle objects only return labels of value 23 or more. -/
theorem callSequence_vehicle_range (f : FString → CityObjectLabel)
    (calls : List (UObject × Int)) :
    ∀ st : TaggerStatics, (∀ c ∈ calls, (GetLabelByPath f c.1).val = 10) →
      ∃ ls st2, callSequence f calls st = some (ls, st2) ∧ ∀ l ∈ ls, 23 ≤ l.val := by
  induction calls with
  | nil =>
    intro st _
    exact ⟨[], st, rfl, fun l hl => by simp at hl⟩
  | cons c rest ih =>
    intro st hveh
    obtain ⟨Object, actorID⟩ := c
    obtain ⟨i, st1, h1, -, -⟩ :=
      GetInstanceLabel_vehicle f Object actorID st (hveh _ (List.mem_cons_self _ _))
    obtain ⟨ls, st2, h2, hls⟩ := ih st1 (fun c hc => hveh c (List.mem_cons_of_mem _ hc))
    refine ⟨_, st2, callSequence_cons f Object actorID rest st st1 st2 _ ls h1 h2, ?_⟩
    intro l hl
    rcases List.mem_cons.1 hl with rfl | hl
    · exact labelOfIndex_ge i
    · exact hls l hl

theorem labelOfIndex_remap (k : Nat) (hk : k ≤ 22) :
    (labelOfIndex k).val = k + 23 ∧ (labelOfIndex (k + 23)).val = k + 23 := by
  have h1 : k % 256 = k := Nat.mod_eq_of_lt (by omega)
  have h2 : (k + 23) % 256 = k + 23 := Nat.mod_eq_of_lt (by omega)
  constructor
  · rw [(labelOfIndex_val k).1 (by omega), h1]
  · rw [(labelOfIndex_val (k + 23)).2 (by omega), h2]

/-- C14: the shift by 23 makes distinct vehicles share a label long before the
reduction modulo 256 does. For `1 ≤ k ≤ 22`, from the initial statics:
when new vehicle identifiers are queried one after the other, the `k`-th and the
`(k+23)`-th get one and the same label, of value `k + 23`; more generally, after
any calls, a vehicle query of the identifier that is the `k`-th or the
`(k+23)`-th of the first-seen order returns the label of value `k + 23`.
And the labels returned by vehicle queries all lie in 23..255, so any sequence of
them returns at most 233 distinct labels. -/
theorem C14_remap_collision (f : FString → CityObjectLabel) (k : Nat)
    (hk1 : 1 ≤ k) (hk22 : k ≤ 22) :
    (∀ calls : List (UObject × Int),
      (∀ c ∈ calls, (GetLabelByPath f c.1).val = 10) →
      (calls.map Prod.snd).Nodup → k + 23 ≤ calls.length → calls.length < 2 ^ 32 →
      ∃ ls st l, callSequence f calls TaggerStatics.initial = some (ls, st) ∧
        ls[k - 1]? = some l ∧ ls[k + 22]? = some l ∧ l.val = k + 23) ∧
    (∀ (pre : List (UObject × Int)) (Object : UObject) (actorID : Int),
      (GetLabelByPath f Object).val = 10 →
      (firstSeen f (pre ++ [(Object, actorID)])).length < 2 ^ 32 →
      ((firstSeen f (pre ++ [(Object, actorID)]))[k - 1]? = some actorID ∨
        (firstSeen f (pre ++ [(Object, actorID)]))[k + 22]? = some actorID) →
      ∃ ls st l st2, callSequence f pre TaggerStatics.initial = some (ls, st) ∧
        GetInstanceLabel f Object actorID st = some (l, st2) ∧ l.val = k + 23) ∧
    (∀ (calls : List (UObject × Int)) (st : TaggerStatics),
      (∀ c ∈ calls, (GetLabelByPath f c.1).val = 10) →
      ∃ ls st2, callSequence f calls st = some (ls, st2) ∧
        (∀ l ∈ ls, 23 ≤ l.val ∧ l.val ≤ 255) ∧ ls.toFinset.card ≤ 233) := by
  have hremap := labelOfIndex_remap k hk22
  have heq : labelOfIndex (k + 23) = labelOfIndex k := Fin.ext (by rw [hremap.1, hremap.2])
  refine ⟨?_, ?_, ?_⟩
  · intro calls hveh hnd hlen hlt
    obtain ⟨ls, st, hseq, -, hall⟩ := callSequence_fresh f calls TaggerStatics.initial hveh hnd
      (fun _ _ => rfl) (by simpa [TaggerStatics.initial] using hlt)
    have ha : k - 1 < calls.length := by omega
    have hb : k + 22 < calls.length := by omega
    have la := (hall (k - 1) _ (List.getElem?_eq_getElem ha)).1
    have lb := (hall (k + 22) _ (List.getElem?_eq_getElem hb)).1
    have ea : TaggerStatics.initial.instanceCounter + (k - 1) + 1 = k := by
      simp only [TaggerStatics.initial]; omega
    have eb : TaggerStatics.initial.instanceCounter + (k + 22) + 1 = k + 23 := by
      simp only [TaggerStatics.initial]; omega
    rw [ea] at la
    rw [eb, heq] at lb
    exact ⟨ls, st, labelOfIndex k, hseq, la, lb, hremap.1⟩
  · intro pre Object actorID hveh hlt hpos
    obtain ⟨ls, st, l, st2, hpre, hcall, hl⟩ := query_label f pre Object actorID hveh hlt
    refine ⟨ls, st, l, st2, hpre, hcall, ?_⟩
    rcases hpos with h | h
    · have e := hl (k - 1) h
      have e2 : k - 1 + 1 = k := by omega
      rw [e2] at e
      rw [e]; exact hremap.1
    · have e := hl (k + 22) h
      rw [e]; exact hremap.2
  · intro calls st hveh
    obtain ⟨ls, st2, hseq, hls⟩ := callSequence_vehicle_range f calls st hveh
    refine ⟨ls, st2, hseq, fun l hl => ⟨hls l hl, Nat.le_of_lt_succ l.isLt⟩, ?_⟩
    have hsub : ls.toFinset ⊆ Finset.Ici (23 : Fin 256) := by
      intro l hl
      rw [Finset.mem_Ici]
      exact Fin.le_def.2 (hls l (List.mem_toFinset.1 hl))
    have hcard : (Finset.Ici (23 : Fin 256)).card = 233 := by
      rw [Fin.card_Ici]; rfl
    calc ls.toFinset.card ≤ (Finset.Ici (23 : Fin 256)).card := Finset.card_le_card hsub
      _ = 233 := hcard

theorem C14_remap_collision_witness :
    (1 ≤ 1 ∧ 1 ≤ 22) ∧
    (∀ c ∈ firstSeenVehicles 24, (GetLabelByPath vehiclesOnly c.1).val = 10) ∧
    ((firstSeenVehicles 24).map Prod.snd).Nodup ∧
    ∃ ls st l,
      callSequence vehiclesOnly (firstSeenVehicles 24) TaggerStatics.initial = some (ls, st) ∧
      ls[1 - 1]? = some l ∧ ls[1 + 22]? = some l ∧ l.val = 1 + 23 :=
  ⟨by decide, by decide, by decide,
    (C14_remap_collision vehiclesOnly 1 (by decide) (by decide)).1 (firstSeenVehicles 24)
      (by decide) (by decide) (by decide) (by decide)⟩

/-- A call whose identifier differs from `a`, or whose object is not a vehicle,
does not store `a`. -/
theorem GetInstanceLabel_absent (f : FString → CityObjectLabel) (Object : UObject)
    (actorID a : Int) (st st1 : TaggerStatics) (l : CityObjectLabel)
    (hcall : GetInstanceLabel f Object actorID st = some (l, st1))
    (h : actorID = a → (GetLabelByPath f Object).val ≠ 10)
    (ha : mapFind st.instanceActorMap a = none) :
    mapFind st1.instanceActorMap a = none := by
  by_cases hveh : (GetLabelByPath f Object).val = 10
  · have hne : actorID ≠ a := fun e => h e hveh
    obtain ⟨l2, st2, h2, hst⟩ := GetInstanceLabel_step f Object actorID st
    rw [hcall] at h2
    obtain ⟨-, rfl⟩ : l = l2 ∧ st1 = st2 := by simpa using h2
    rcases hst with rfl | ⟨-, rfl⟩
    · exact ha
    · rw [mapFind_cons_of_ne _ _ _ _ hne]
      exact ha
  · have h2 := GetInstanceLabel_of_not_vehicle f Object actorID st hveh
    rw [hcall] at h2
    obtain ⟨-, rfl⟩ : l = GetLabelByPath f Object ∧ st1 = st := by simpa using h2
    exact ha

/-- C15: `GetInstanceLabel` changes the statics only on a first-seen vehicle.
When the path label is not 10, or the identifier is stored already, the call
returns with the counter and the map as they were. Otherwise (a vehicle whose
identifier is not stored) the counter is incremented by one as a 32-bit unsigned
value, which is exactly one more whenever the counter is below 2^32 - 1, and
exactly the entry of the identifier with the new counter value is added, every
other identifier being looked up as before. And through any calls in which an
identifier that is not stored is queried with non-vehicle objects only, that
identifier stays out of the map. -/
theorem C15_statics_change_on_first_seen (f : FString → CityObjectLabel) (Object : UObject)
    (actorID : Int) (st : TaggerStatics) :
    (((GetLabelByPath f Object).val ≠ 10 ∨ mapFind st.instanceActorMap actorID ≠ none) →
      ∃ l, GetInstanceLabel f Object actorID st = some (l, st)) ∧
    ((GetLabelByPath f Object).val = 10 → mapFind st.instanceActorMap actorID = none →
      ∃ l st1, GetInstanceLabel f Object actorID st = some (l, st1) ∧
        st1.instanceCounter = (st.instanceCounter + 1) % 2 ^ 32 ∧
        (st.instanceCounter + 1 < 2 ^ 32 → st1.instanceCounter = st.instanceCounter + 1) ∧
        st1.instanceActorMap = (actorID, st1.instanceCounter) :: st.instanceActorMap ∧
        mapFind st1.instanceActorMap actorID = some st1.instanceCounter ∧
        (∀ k, k ≠ actorID →
          mapFind st1.instanceActorMap k = mapFind st.instanceActorMap k) ∧
        st1.instanceActorMap.length = st.instanceActorMap.length + 1) ∧
    (∀ (calls : List (UObject × Int)) (a : Int),
      (∀ c ∈ calls, c.2 = a → (GetLabelByPath f c.1).val ≠ 10) →
      mapFind st.instanceActorMap a = none →
      ∃ ls st2, callSequence f calls st = some (ls, st2) ∧
        mapFind st2.instanceActorMap a = none) := by
  refine ⟨GetInstanceLabel_same_statics f Object actorID st, ?_, ?_⟩
  · intro hveh hnone
    refine ⟨_, _, GetInstanceLabel_of_fresh f Object actorID st hveh hnone, rfl, ?_, rfl,
      mapFind_cons_self _ _ _, ?_, rfl⟩
    · intro hlt
      exact Nat.mod_eq_of_lt hlt
    · intro k hk
      exact mapFind_cons_of_ne _ _ _ _ (fun e => hk e.symm)
  · intro calls
    induction calls generalizing st with
    | nil =>
      intro a _ ha
      exact ⟨[], st, rfl, ha⟩
    | cons c rest ih =>
      intro a hcalls ha
      obtain ⟨Obj, id⟩ := c
      obtain ⟨l, st1, h1, -⟩ := GetInstanceLabel_step f Obj id st
      have ha1 := GetInstanceLabel_absent f Obj id a st st1 l h1
        (hcalls (Obj, id) (List.mem_cons_self _ _)) ha
      obtain ⟨ls, st2, h2, ha2⟩ := ih st1 a
        (fun c hc => hcalls c (List.mem_cons_of_mem _ hc)) ha1
      exact ⟨_, st2, callSequence_cons f Obj id rest st st1 st2 l ls h1 h2, ha2⟩

/-- C16: from the initial statics, after any calls with fewer than 2^32
first-seen vehicle identifiers: the calls all return; the counter is the number
of first-seen identifiers and the map has that many entries; the keys are
pairwise distinct and so are the stored indices; the stored indices are exactly
the numbers 1, ..., `instanceCounter`; and the identifier that was the `k`-th
distinct vehicle identifier to be queried (position `k - 1` of the first-seen
order) has stored index `k`. -/
theorem C16_indices_one_to_counter (f : FString → CityObjectLabel)
    (calls : List (UObject × Int)) (hlt : (firstSeen f calls).length < 2 ^ 32) :
    ∃ ls st, callSequence f calls TaggerStatics.initial = some (ls, st) ∧
      st.instanceCounter = (firstSeen f calls).length ∧
      st.instanceActorMap.length = st.instanceCounter ∧
      (mapKeys st.instanceActorMap).Nodup ∧
      (st.instanceActorMap.map Prod.snd).Nodup ∧
      (∀ v, v ∈ st.instanceActorMap.map Prod.snd ↔ 1 ≤ v ∧ v ≤ st.instanceCounter) ∧
      (∀ k a, 1 ≤ k → (firstSeen f calls)[k - 1]? = some a →
        mapFind st.instanceActorMap a = some k) := by
  obtain ⟨ls, st, hseq, hmap, hcnt, -, hknd, hidx⟩ := callSequence_initial f calls hlt
  have hvals : st.instanceActorMap.map Prod.snd
      = (List.range' 1 (firstSeen f calls).length).reverse := by
    rw [hmap, List.map_reverse, numbered_values]
  refine ⟨ls, st, hseq, hcnt, ?_, hknd, ?_, ?_, ?_⟩
  · rw [hmap, List.length_reverse, numbered_length, hcnt]
  · rw [hvals]
    exact List.nodup_reverse.2 (List.nodup_range' _ _)
  · intro v
    rw [hvals, List.mem_reverse, List.mem_range'_1, hcnt]
    omega
  · intro k a hk hka
    have h := hidx (k - 1) a hka
    have e : k - 1 + 1 = k := by omega
    rw [e] at h
    exact h

theorem C16_indices_one_to_counter_witness :
    (firstSeen vehiclesOnly
      [(carObject, 5), (roadObject, 6), (carObject, 5), (carObject, 9)]).length < 2 ^ 32 ∧
    ∃ ls st, callSequence vehiclesOnly
        [(carObject, 5), (roadObject, 6), (carObject, 5), (carObject, 9)]
        TaggerStatics.initial = some (ls, st) ∧
      st.instanceCounter = (firstSeen vehiclesOnly
        [(carObject, 5), (roadObject, 6), (carObject, 5), (carObject, 9)]).length ∧
      st.instanceActorMap.length = st.instanceCounter ∧
      (mapKeys st.instanceActorMap).Nodup ∧
      (st.instanceActorMap.map Prod.snd).Nodup ∧
      (∀ v, v ∈ st.instanceActorMap.map Prod.snd ↔ 1 ≤ v ∧ v ≤ st.instanceCounter) ∧
      (∀ k a, 1 ≤ k → (firstSeen vehiclesOnly
          [(carObject, 5), (roadObject, 6), (carObject, 5), (carObject, 9)])[k - 1]? = some a →
        mapFind st.instanceActorMap a = some k) :=
  ⟨by decide, C16_indices_one_to_counter vehiclesOnly
    [(carObject, 5), (roadObject, 6), (carObject, 5), (carObject, 9)] (by decide)⟩

/-! ## The first 5000 vehicles -/

/-- When the calls are all on vehicle objects and their identifiers are pairwise
distinct and not among `seen`, the first-seen order is `seen` followed by the
identifiers of the calls. -/
theorem firstSeenFrom_fresh (f : FString → CityObjectLabel) (calls : List (UObject × Int)) :
    ∀ seen : List Int, (∀ c ∈ calls, (GetLabelByPath f c.1).val = 10) →
      (seen ++ calls.map Prod.snd).Nodup →
      firstSeenFrom f seen calls = seen ++ calls.map Prod.snd := by
  induction calls with
  | nil => intro seen _ _; simp [firstSeenFrom]
  | cons c rest ih =>
    intro seen hveh hnd
    obtain ⟨Object, actorID⟩ := c
    have hnot : actorID ∉ seen := by
      intro hin
      have hdis := (List.nodup_append.1 hnd).2.2
      exact hdis hin (by simp)
    have hcond : (GetLabelByPath f Object).val = 10 ∧ actorID ∉ seen :=
      ⟨hveh _ (List.mem_cons_self _ _), hnot⟩
    have hnd2 : ((seen ++ [actorID]) ++ rest.map Prod.snd).Nodup := by
      simpa [List.append_assoc] using hnd
    rw [firstSeenFrom, if_pos hcond,
      ih (seen ++ [actorID]) (fun c hc => hveh c (List.mem_cons_of_mem _ hc)) hnd2]
    simp [List.append_assoc]

theorem labelOfIndex_add_256 (i : Nat) : labelOfIndex (i + 256) = labelOfIndex i := by
  simp [labelOfIndex]

theorem firstSeenVehicles_eq (n : Nat) :
    firstSeenVehicles n = (List.range n).map (fun i : Nat => (carObject, Int.ofNat i)) := by
  have h : ∀ l : List Nat, (do let a ← l; pure (a : Int)) = l.map (fun a : Nat => Int.ofNat a) := by
    intro l
    induction l with
    | nil => rfl
    | cons a rest ih =>
      have ih2 : (rest.flatMap fun a => [(a : Int)]) = rest.map (fun a : Nat => Int.ofNat a) := ih
      show (a :: rest).flatMap (fun a => [(a : Int)]) = _
      simp [List.flatMap_cons, ih2]
  unfold firstSeenVehicles
  rw [h, List.map_map]
  rfl

theorem firstSeenVehicles_length (n : Nat) : (firstSeenVehicles n).length = n := by
  simp [firstSeenVehicles_eq]

theorem firstSeenVehicles_vehicle (n : Nat) :
    ∀ c ∈ firstSeenVehicles n, (GetLabelByPath vehiclesOnly c.1).val = 10 := by
  intro c hc
  rw [firstSeenVehicles_eq] at hc
  obtain ⟨i, -, rfl⟩ := List.mem_map.1 hc
  show (GetLabelByPath vehiclesOnly carObject).val = 10
  decide

theorem firstSeenVehicles_nodup (n : Nat) : ((firstSeenVehicles n).map Prod.snd).Nodup := by
  have e : (firstSeenVehicles n).map Prod.snd = (List.range n).map (fun i : Nat => Int.ofNat i) := by
    rw [firstSeenVehicles_eq, List.map_map]
    rfl
  rw [e]
  exact List.Nodup.map (fun a b h => Int.ofNat.inj h) (List.nodup_range n)

/-- C10 (amended): from the initial statics, at most 5000 new vehicle identifiers
queried one after the other are handled without their instance index
overflowing or wrapping: all calls return, the counter ends at the number of
vehicles, the vehicle queried at position `k` (from 0) has stored index `k + 1`,
and the stored indices are pairwise distinct. The label returned is computed from
that index reduced modulo 256 (plus 23 when the reduced value is below 23), so it
lies in 23..255 and, by the reduction to the 8-bit stencil range, the vehicle at
position `k + 256` gets the label of the vehicle at position `k`. -/
theorem C10_indices_within_5000 (f : FString → CityObjectLabel)
    (calls : List (UObject × Int))
    (hveh : ∀ c ∈ calls, (GetLabelByPath f c.1).val = 10)
    (hnd : (calls.map Prod.snd).Nodup) (hlen : calls.length ≤ 5000) :
    ∃ ls st, callSequence f calls TaggerStatics.initial = some (ls, st) ∧
      ls.length = calls.length ∧
      st.instanceCounter = calls.length ∧
      st.instanceActorMap.length = calls.length ∧
      (st.instanceActorMap.map Prod.snd).Nodup ∧
      (∀ k c, calls[k]? = some c →
        mapFind st.instanceActorMap c.2 = some (k + 1) ∧
        ∃ l, ls[k]? = some l ∧
          l.val = if (k + 1) % 256 < 23 then (k + 1) % 256 + 23 else (k + 1) % 256) ∧
      (∀ l ∈ ls, 23 ≤ l.val ∧ l.val ≤ 255) ∧
      (∀ k, k + 256 < calls.length → ls[k + 256]? = ls[k]?) := by
  have hlt : calls.length < 2 ^ 32 := Nat.lt_of_le_of_lt hlen (by decide)
  obtain ⟨ls, st, hseq, hcnt, hall⟩ := callSequence_fresh f calls TaggerStatics.initial hveh hnd
    (fun _ _ => rfl) (by simpa [TaggerStatics.initial] using hlt)
  have hzero : TaggerStatics.initial.instanceCounter = 0 := rfl
  simp only [hzero, Nat.zero_add] at hcnt hall
  obtain ⟨ls1, st1, hseq1, hlen1, -, -⟩ := callSequence_keeps f calls TaggerStatics.initial
  rw [hseq] at hseq1
  obtain ⟨rfl, rfl⟩ : ls = ls1 ∧ st = st1 := by simpa using hseq1
  have hfs : firstSeen f calls = calls.map Prod.snd := by
    have h := firstSeenFrom_fresh f calls [] hveh (by simpa using hnd)
    simpa [firstSeen] using h
  have hfslen : (firstSeen f calls).length = calls.length := by rw [hfs, List.length_map]
  obtain ⟨ls2, st2, hseq2, hmap, -, -, -, -⟩ :=
    callSequence_initial f calls (by rw [hfslen]; exact hlt)
  rw [hseq] at hseq2
  obtain ⟨-, rfl⟩ : ls = ls2 ∧ st = st2 := by simpa using hseq2
  obtain ⟨ls3, st3, hseq3, hrange⟩ := callSequence_vehicle_range f calls TaggerStatics.initial hveh
  rw [hseq] at hseq3
  obtain ⟨rfl, -⟩ : ls = ls3 ∧ st = st3 := by simpa using hseq3
  refine ⟨ls, st, hseq, hlen1, hcnt, ?_, ?_, ?_, ?_, ?_⟩
  · rw [hmap, List.length_reverse, numbered_length, hfslen]
  · rw [hmap, List.map_reverse, numbered_values]
    exact List.nodup_reverse.2 (List.nodup_range' _ _)
  · intro k c hk
    obtain ⟨hl, hm⟩ := hall k c hk
    refine ⟨hm, labelOfIndex (k + 1), hl, ?_⟩
    by_cases h23 : (k + 1) % 256 < 23
    · rw [if_pos h23]; exact (labelOfIndex_val (k + 1)).1 h23
    · rw [if_neg h23]; exact (labelOfIndex_val (k + 1)).2 (by omega)
  · exact fun l hl => ⟨hrange l hl, Nat.le_of_lt_succ l.isLt⟩
  · intro k hk
    have ha : k < calls.length := by omega
    have h1 := (hall k _ (List.getElem?_eq_getElem ha)).1
    have h2 := (hall (k + 256) _ (List.getElem?_eq_getElem hk)).1
    have e : k + 256 + 1 = k + 1 + 256 := by omega
    rw [e, labelOfIndex_add_256] at h2
    rw [h1, h2]

theorem C10_indices_within_5000_witness :
    (firstSeenVehicles 5000).length ≤ 5000 ∧
    ∃ ls st, callSequence vehiclesOnly (firstSeenVehicles 5000) TaggerStatics.initial
        = some (ls, st) ∧
      ls.length = (firstSeenVehicles 5000).length ∧
      st.instanceCounter = (firstSeenVehicles 5000).length ∧
      st.instanceActorMap.length = (firstSeenVehicles 5000).length ∧
      (st.instanceActorMap.map Prod.snd).Nodup ∧
      (∀ k c, (firstSeenVehicles 5000)[k]? = some c →
        mapFind st.instanceActorMap c.2 = some (k + 1) ∧
        ∃ l, ls[k]? = some l ∧
          l.val = if (k + 1) % 256 < 23 then (k + 1) % 256 + 23 else (k + 1) % 256) ∧
      (∀ l ∈ ls, 23 ≤ l.val ∧ l.val ≤ 255) ∧
      (∀ k, k + 256 < (firstSeenVehicles 5000).length → ls[k + 256]? = ls[k]?) :=
  ⟨Nat.le_of_eq (firstSeenVehicles_length 5000),
    C10_indices_within_5000 vehiclesOnly (firstSeenVehicles 5000)
      (firstSeenVehicles_vehicle 5000) (firstSeenVehicles_nodup 5000)
      (Nat.le_of_eq (firstSeenVehicles_length 5000))⟩

end ATagger
